import Mathlib

/-!
# Verification of the X402 payment protocol implementation

Shallow embedding of the payment negotiation core of the repository:
the client (`src/python/src/client/core/custom_x402_client.py`), the
server routes (`src/python/src/server/routes/content.py`) and the
payment service (`src/python/src/server/services/payment_service.py`).

JSON values are modelled by an inductive `Json`; Python's
`json.dumps(..., separators=(',', ':'))` is modelled by `dumpJson`
(compact output, `ensure_ascii` escaping) and `json.loads` by a fuel
based parser `parseValue`.  Numbers are modelled as integers: the only
number the payment payloads carry is the literal protocol version `1`.
-/

namespace X402

/-- JSON values (Python `dict`s are ordered association lists, matching
the insertion-ordered dictionaries that `json.loads`/`json.dumps` use). -/
inductive Json where
  | null
  | bool (b : Bool)
  | num (n : Int)
  | str (s : String)
  | arr (xs : List Json)
  | obj (kvs : List (String × Json))

instance : Inhabited Json := ⟨Json.null⟩

/-- Python dictionary lookup `d.get(k)`: the last binding of a key wins,
as in a Python dict built from an association list. Non-dict values have
no keys. -/
def jsonGet (j : Json) (k : String) : Option Json :=
  match j with
  | .obj kvs => kvs.foldl (fun acc kv => if kv.1 = k then some kv.2 else acc) none
  | _ => none

/-- Python truthiness of a JSON value (`bool(x)`): `None`, `False`, `0`,
`""`, `[]` and `{}` are falsy. -/
def jsonTruthy : Json → Bool
  | .null => false
  | .bool b => b
  | .num n => n ≠ 0
  | .str s => s ≠ ""
  | .arr xs => ¬ xs.isEmpty
  | .obj kvs => ¬ kvs.isEmpty

/-- Truthiness of an optional value, `None` (missing) being falsy. -/
def jsonTruthyOpt : Option Json → Bool
  | none => false
  | some j => jsonTruthy j

/-- Python `== 1` on an optional JSON value: `1 == 1` and, by Python's
bool/int identification, `True == 1`. -/
def pyEqOne : Option Json → Bool
  | some (.num n) => n = 1
  | some (.bool b) => b
  | _ => false

/-! ## Compact JSON serialization (`json.dumps(payload, separators=(',', ':'))`)

Python emits with `ensure_ascii=True`: printable ASCII other than `"`
and `\` is emitted verbatim, `\ " \b \f \n \r \t` use the two-character
escapes, every other character becomes `\uXXXX` (lower-case hex), and
characters above the Basic Multilingual Plane become a surrogate pair. -/

/-- Lower-case hexadecimal digit. -/
def hexDigit (n : Nat) : Char :=
  (("0123456789abcdef" : String).data).getD n '0'

/-- The four hex digits of a `\uXXXX` escape for a code point `< 0x10000`. -/
def uEscapeDigits (n : Nat) : List Char :=
  [hexDigit (n / 4096 % 16), hexDigit (n / 256 % 16), hexDigit (n / 16 % 16), hexDigit (n % 16)]

/-- A full `\uXXXX` escape. -/
def uEscape (n : Nat) : List Char :=
  '\\' :: 'u' :: uEscapeDigits n

/-- How `json.dumps` (with `ensure_ascii=True`) renders one character of
a string. -/
def escapeChar (c : Char) : List Char :=
  if c = '"' then ['\\', '"']
  else if c = '\\' then ['\\', '\\']
  else if c = Char.ofNat 8 then ['\\', 'b']
  else if c = Char.ofNat 12 then ['\\', 'f']
  else if c = '\n' then ['\\', 'n']
  else if c = '\r' then ['\\', 'r']
  else if c = '\t' then ['\\', 't']
  else if 0x20 ≤ c.toNat ∧ c.toNat ≤ 0x7e then [c]
  else if c.toNat < 0x10000 then uEscape c.toNat
  else
    uEscape (0xd800 + (c.toNat - 0x10000) / 0x400) ++
      uEscape (0xdc00 + (c.toNat - 0x10000) % 0x400)

/-- A serialized JSON string literal, quotes included. -/
def dumpString (s : String) : List Char :=
  '"' :: (s.data.map escapeChar).flatten ++ ['"']

/-- ASCII digit character. -/
def digitChar (d : Nat) : Char := Char.ofNat (48 + d)

/-- Decimal digits of a natural number, most significant first
(fuel-based helper; `fuel > n` suffices). -/
def natToCharsFuel : Nat → Nat → List Char
  | 0, _ => []
  | f + 1, n => if n < 10 then [digitChar n] else natToCharsFuel f (n / 10) ++ [digitChar (n % 10)]

/-- Decimal rendering of a natural number. -/
def natToChars (n : Nat) : List Char := natToCharsFuel (n + 1) n

/-- Decimal rendering of an integer, as `json.dumps` prints Python ints. -/
def intToChars (n : Int) : List Char :=
  if n < 0 then '-' :: natToChars n.natAbs else natToChars n.toNat

/-- The literal `null`. -/
def nullChars : List Char := ['n', 'u', 'l', 'l']

/-- The literal `true`. -/
def trueChars : List Char := ['t', 'r', 'u', 'e']

/-- The literal `false`. -/
def falseChars : List Char := ['f', 'a', 'l', 's', 'e']

mutual

/-- Compact serialization of a JSON value: Python's
`json.dumps(v, separators=(',', ':'))`. -/
def dumpJson : Json → List Char
  | .null => nullChars
  | .bool true => trueChars
  | .bool false => falseChars
  | .num n => intToChars n
  | .str s => dumpString s
  | .arr xs => '[' :: dumpElems xs ++ [']']
  | .obj kvs => '{' :: dumpMembers kvs ++ ['}']

/-- Comma-separated serialization of array elements. -/
def dumpElems : List Json → List Char
  | [] => []
  | [x] => dumpJson x
  | x :: y :: xs => dumpJson x ++ ',' :: dumpElems (y :: xs)

/-- Comma-separated serialization of object members (`"key":value`). -/
def dumpMembers : List (String × Json) → List Char
  | [] => []
  | [(k, v)] => dumpString k ++ ':' :: dumpJson v
  | (k, v) :: m :: kvs => dumpString k ++ ':' :: dumpJson v ++ ',' :: dumpMembers (m :: kvs)

end

/-! ## JSON parsing (`json.loads`)

A fuel-based recursive-descent parser for the compact JSON grammar.
Deliberate restrictions relative to CPython's `json.loads`, all outside
the image of `dumpJson` (the client's encoder): no inter-token
whitespace, integer numbers only, leading zeros accepted, and lone
surrogate `\uXXXX` escapes rejected (a lone surrogate is not a valid
Unicode scalar value and cannot be a Lean `Char`). -/

/-- Hexadecimal digit value, accepting both cases as `json.loads` does. -/
def hexVal (c : Char) : Option Nat :=
  if '0' ≤ c ∧ c ≤ '9' then some (c.toNat - 48)
  else if 'a' ≤ c ∧ c ≤ 'f' then some (c.toNat - 87)
  else if 'A' ≤ c ∧ c ≤ 'F' then some (c.toNat - 55)
  else none

/-- Parse the four hex digits following `\u`. -/
def parseU4 : List Char → Option (Nat × List Char)
  | a :: b :: c :: d :: rest => do
    let x ← hexVal a
    let y ← hexVal b
    let z ← hexVal c
    let w ← hexVal d
    pure (x * 4096 + y * 256 + z * 16 + w, rest)
  | _ => none

/-- The two-character string escapes accepted by `json.loads`. -/
def unescapeChar (e : Char) : Option Char :=
  if e = '"' then some '"'
  else if e = '\\' then some '\\'
  else if e = '/' then some '/'
  else if e = 'b' then some (Char.ofNat 8)
  else if e = 'f' then some (Char.ofNat 12)
  else if e = 'n' then some '\n'
  else if e = 'r' then some '\r'
  else if e = 't' then some '\t'
  else none

/-- Parse the body of a string literal (after the opening quote) up to
and including the closing quote, decoding escapes and recombining
surrogate pairs. -/
def parseStringBody : Nat → List Char → Option (List Char × List Char)
  | 0, _ => none
  | _ + 1, [] => none
  | fuel + 1, c :: rest =>
    if c = '"' then some ([], rest)
    else if c = '\\' then
      match rest with
      | [] => none
      | e :: rest2 =>
        if e = 'u' then
          match parseU4 rest2 with
          | none => none
          | some (n, rest3) =>
            if 0xd800 ≤ n ∧ n ≤ 0xdbff then
              match rest3 with
              | '\\' :: 'u' :: rest4 =>
                match parseU4 rest4 with
                | none => none
                | some (m, rest5) =>
                  if 0xdc00 ≤ m ∧ m ≤ 0xdfff then
                    (parseStringBody fuel rest5).map fun p =>
                      (Char.ofNat (0x10000 + (n - 0xd800) * 0x400 + (m - 0xdc00)) :: p.1, p.2)
                  else none
              | _ => none
            else if 0xdc00 ≤ n ∧ n ≤ 0xdfff then none
            else (parseStringBody fuel rest3).map fun p => (Char.ofNat n :: p.1, p.2)
        else
          match unescapeChar e with
          | some c2 => (parseStringBody fuel rest2).map fun p => (c2 :: p.1, p.2)
          | none => none
    else (parseStringBody fuel rest).map fun p => (c :: p.1, p.2)

/-- Value of a list of decimal digit characters. -/
def digitsVal (ds : List Char) : Nat :=
  ds.foldl (fun a c => a * 10 + (c.toNat - 48)) 0

/-- Split off the maximal run of leading decimal digits. -/
def takeDigits : List Char → List Char × List Char
  | [] => ([], [])
  | c :: rest =>
    if c.isDigit then
      let p := takeDigits rest
      (c :: p.1, p.2)
    else ([], c :: rest)

/-- Parse an integer JSON number. -/
def parseNumber (input : List Char) : Option (Int × List Char) :=
  match input with
  | [] => none
  | c :: rest =>
    if c = '-' then
      let p := takeDigits rest
      if p.1.isEmpty then none else some (-(digitsVal p.1 : Int), p.2)
    else
      let p := takeDigits (c :: rest)
      if p.1.isEmpty then none else some ((digitsVal p.1 : Int), p.2)

mutual

/-- Parse one JSON value; the fuel bounds nesting (callers pass the
input length, which always suffices). -/
def parseValue : Nat → List Char → Option (Json × List Char)
  | 0, _ => none
  | _ + 1, [] => none
  | fuel + 1, c :: rest =>
    if c = '{' then
      match rest with
      | '}' :: r => some (.obj [], r)
      | _ => (parseMembers fuel rest).map fun p => (.obj p.1, p.2)
    else if c = '[' then
      match rest with
      | ']' :: r => some (.arr [], r)
      | _ => (parseElems fuel rest).map fun p => (.arr p.1, p.2)
    else if c = '"' then
      (parseStringBody (rest.length + 1) rest).map fun p => (.str (String.mk p.1), p.2)
    else if c = 'n' then
      match rest with
      | 'u' :: 'l' :: 'l' :: r => some (.null, r)
      | _ => none
    else if c = 't' then
      match rest with
      | 'r' :: 'u' :: 'e' :: r => some (.bool true, r)
      | _ => none
    else if c = 'f' then
      match rest with
      | 'a' :: 'l' :: 's' :: 'e' :: r => some (.bool false, r)
      | _ => none
    else
      (parseNumber (c :: rest)).map fun p => (.num p.1, p.2)

/-- Parse the members of a non-empty object, consuming the closing `}`. -/
def parseMembers : Nat → List Char → Option (List (String × Json) × List Char)
  | 0, _ => none
  | fuel + 1, input =>
    match input with
    | '"' :: rest =>
      match parseStringBody (rest.length + 1) rest with
      | none => none
      | some (key, r1) =>
        match r1 with
        | ':' :: r2 =>
          match parseValue fuel r2 with
          | none => none
          | some (v, r3) =>
            match r3 with
            | ',' :: r4 => (parseMembers fuel r4).map fun p => ((String.mk key, v) :: p.1, p.2)
            | '}' :: r4 => some ([(String.mk key, v)], r4)
            | _ => none
        | _ => none
    | _ => none

/-- Parse the elements of a non-empty array, consuming the closing `]`. -/
def parseElems : Nat → List Char → Option (List Json × List Char)
  | 0, _ => none
  | fuel + 1, input =>
    match parseValue fuel input with
    | none => none
    | some (v, r1) =>
      match r1 with
      | ',' :: r2 => (parseElems fuel r2).map fun p => (v :: p.1, p.2)
      | ']' :: r2 => some ([v], r2)
      | _ => none

end

/-- `json.loads` on a compact document: parse one value and require the
whole input to be consumed. -/
def parseJson (s : List Char) : Option Json :=
  match parseValue (s.length + 1) s with
  | some (j, []) => some j
  | _ => none

/-! ## The parser inverts the serializer -/

theorem toNat_ofNat_valid {n : Nat} (h : Nat.isValidChar n) : (Char.ofNat n).toNat = n := by
  rw [Char.ofNat, dif_pos h]
  rfl

theorem hexVal_hexDigit : ∀ n, n < 16 → hexVal (hexDigit n) = some n := by decide

theorem parseU4_uEscapeDigits (n : Nat) (rest : List Char) (h : n < 65536) :
    parseU4 (uEscapeDigits n ++ rest) = some (n, rest) := by
  have h1 := hexVal_hexDigit (n / 4096 % 16) (Nat.mod_lt _ (by norm_num))
  have h2 := hexVal_hexDigit (n / 256 % 16) (Nat.mod_lt _ (by norm_num))
  have h3 := hexVal_hexDigit (n / 16 % 16) (Nat.mod_lt _ (by norm_num))
  have h4 := hexVal_hexDigit (n % 16) (Nat.mod_lt _ (by norm_num))
  simp only [uEscapeDigits, List.cons_append, List.nil_append, parseU4,
    h1, h2, h3, h4, Option.bind_eq_bind, Option.some_bind]
  congr 1
  congr 1
  omega

/-- Unfolding of `parseStringBody` at a `\u` escape. -/
theorem psb_step_u (fuel : Nat) (r : List Char) :
    parseStringBody (fuel + 1) ('\\' :: 'u' :: r) =
      (match parseU4 r with
      | none => none
      | some (n, rest3) =>
        if 0xd800 ≤ n ∧ n ≤ 0xdbff then
          match rest3 with
          | '\\' :: 'u' :: rest4 =>
            match parseU4 rest4 with
            | none => none
            | some (m, rest5) =>
              if 0xdc00 ≤ m ∧ m ≤ 0xdfff then
                (parseStringBody fuel rest5).map fun p =>
                  (Char.ofNat (0x10000 + (n - 0xd800) * 0x400 + (m - 0xdc00)) :: p.1, p.2)
              else none
          | _ => none
        else if 0xdc00 ≤ n ∧ n ≤ 0xdfff then none
        else (parseStringBody fuel rest3).map fun p => (Char.ofNat n :: p.1, p.2)) := rfl

/-- One parsing step consumes exactly the escape sequence of one
character and produces that character. -/
theorem parseStringBody_escape (c : Char) (fuel : Nat) (tail : List Char) :
    parseStringBody (fuel + 1) (escapeChar c ++ tail) =
      (parseStringBody fuel tail).map fun p => (c :: p.1, p.2) := by
  have hvalid : c.toNat < 55296 ∨ 57343 < c.toNat ∧ c.toNat < 1114112 := c.valid
  by_cases h1 : c = '"'
  · subst h1; simp [escapeChar, parseStringBody, unescapeChar]
  by_cases h2 : c = '\\'
  · subst h2; simp [escapeChar, parseStringBody, unescapeChar]
  by_cases h3 : c = Char.ofNat 8
  · subst h3; simp [escapeChar, parseStringBody, unescapeChar]
  by_cases h4 : c = Char.ofNat 12
  · subst h4; simp [escapeChar, parseStringBody, unescapeChar]
  by_cases h5 : c = '\n'
  · subst h5; simp [escapeChar, parseStringBody, unescapeChar]
  by_cases h6 : c = '\r'
  · subst h6; simp [escapeChar, parseStringBody, unescapeChar]
  by_cases h7 : c = '\t'
  · subst h7; simp [escapeChar, parseStringBody, unescapeChar]
  by_cases h8 : 0x20 ≤ c.toNat ∧ c.toNat ≤ 0x7e
  · have hesc : escapeChar c = [c] := by
      simp [escapeChar, h1, h2, h3, h4, h5, h6, h7, h8]
    rw [hesc]
    simp only [List.cons_append, List.nil_append, parseStringBody, if_neg h1, if_neg h2]
    simp
  by_cases h9 : c.toNat < 0x10000
  · have hesc : escapeChar c = '\\' :: 'u' :: uEscapeDigits c.toNat := by
      simp [escapeChar, h1, h2, h3, h4, h5, h6, h7, h8, h9, uEscape]
    have hns1 : ¬ (55296 ≤ c.toNat ∧ c.toNat ≤ 56319) := by omega
    have hns2 : ¬ (56320 ≤ c.toNat ∧ c.toNat ≤ 57343) := by omega
    rw [hesc]
    simp only [List.cons_append]
    rw [psb_step_u, parseU4_uEscapeDigits c.toNat tail h9]
    simp only [if_neg hns1, if_neg hns2, Char.ofNat_toNat]
  · have hesc : escapeChar c =
        ('\\' :: 'u' :: uEscapeDigits (0xd800 + (c.toNat - 0x10000) / 0x400)) ++
        ('\\' :: 'u' :: uEscapeDigits (0xdc00 + (c.toNat - 0x10000) % 0x400)) := by
      simp [escapeChar, h1, h2, h3, h4, h5, h6, h7, h8, h9, uEscape]
    have hmod := Nat.mod_lt (c.toNat - 0x10000) (show 0 < 1024 by norm_num)
    have hhi : 0xd800 + (c.toNat - 0x10000) / 0x400 < 65536 := by omega
    have hlo : 0xdc00 + (c.toNat - 0x10000) % 0x400 < 65536 := by omega
    have hin : 55296 ≤ 55296 + (c.toNat - 65536) / 1024 ∧
        55296 + (c.toNat - 65536) / 1024 ≤ 56319 := by omega
    have hin2 : 56320 ≤ 56320 + (c.toNat - 65536) % 1024 ∧
        56320 + (c.toNat - 65536) % 1024 ≤ 57343 := by omega
    have harith : 65536 + (55296 + (c.toNat - 65536) / 1024 - 55296) * 1024 +
        (56320 + (c.toNat - 65536) % 1024 - 56320) = c.toNat := by
      have := Nat.div_add_mod (c.toNat - 65536) 1024
      omega
    rw [hesc]
    simp only [List.cons_append, List.append_assoc]
    rw [psb_step_u, parseU4_uEscapeDigits _ _ hhi]
    simp only [if_pos hin]
    rw [parseU4_uEscapeDigits _ _ hlo]
    simp only [if_pos hin2]
    rw [harith, Char.ofNat_toNat]

theorem escapeChar_length_pos (c : Char) : 0 < (escapeChar c).length := by
  unfold escapeChar
  split_ifs <;> simp [uEscape, uEscapeDigits]

theorem length_le_flatten_escape (cs : List Char) :
    cs.length ≤ ((cs.map escapeChar).flatten).length := by
  induction cs with
  | nil => simp
  | cons c cs ih =>
    simp only [List.map_cons, List.flatten_cons, List.length_append, List.length_cons]
    have := escapeChar_length_pos c
    omega

/-- `parseStringBody` inverts the escaped rendering of a character list. -/
theorem parseStringBody_dump (cs : List Char) : ∀ fuel rest, cs.length < fuel →
    parseStringBody fuel ((cs.map escapeChar).flatten ++ '"' :: rest) = some (cs, rest) := by
  induction cs with
  | nil =>
    intro fuel rest hf
    match fuel, hf with
    | f + 1, _ => simp [parseStringBody]
  | cons c cs ih =>
    intro fuel rest hf
    match fuel, hf with
    | f + 1, hf =>
      simp only [List.map_cons, List.flatten_cons, List.append_assoc]
      rw [parseStringBody_escape, ih f rest (by simpa using hf)]
      rfl

/-- A guard on the remaining input: the next character, if any, is not a
digit (so that number parsing stops exactly at a serialized boundary). -/
def NumGuard (rest : List Char) : Prop :=
  ∀ c, rest.head? = some c → c.isDigit = false

theorem toNat_digitChar (d : Nat) (h : d < 10) : (digitChar d).toNat = 48 + d :=
  toNat_ofNat_valid (Or.inl (by omega))

theorem isDigit_digitChar : ∀ d, d < 10 → (digitChar d).isDigit = true := by decide

theorem isDigit_ne (c x : Char) (h : c.isDigit = true) (hx : x.isDigit = false) : c ≠ x := by
  intro he
  rw [he, hx] at h
  exact Bool.false_ne_true h

theorem natToCharsFuel_spec : ∀ f n, n < f →
    natToCharsFuel f n ≠ [] ∧ (∀ c ∈ natToCharsFuel f n, c.isDigit = true) ∧
      digitsVal (natToCharsFuel f n) = n := by
  intro f
  induction f with
  | zero => omega
  | succ f ih =>
    intro n hn
    by_cases h10 : n < 10
    · refine ⟨by simp [natToCharsFuel, h10], ?_, ?_⟩
      · simp [natToCharsFuel, h10, isDigit_digitChar n h10]
      · simp [natToCharsFuel, h10, digitsVal, toNat_digitChar n h10]
    · have hrec := ih (n / 10) (by omega)
      refine ⟨by simp [natToCharsFuel, h10, hrec.1], ?_, ?_⟩
      · intro c hc
        simp only [natToCharsFuel, if_neg h10, List.mem_append, List.mem_singleton] at hc
        rcases hc with hc | hc
        · exact hrec.2.1 c hc
        · rw [hc]
          exact isDigit_digitChar _ (Nat.mod_lt _ (by omega))
      · simp only [natToCharsFuel, if_neg h10, digitsVal, List.foldl_append]
        have := hrec.2.2
        simp only [digitsVal] at this
        rw [this]
        simp only [List.foldl_cons, List.foldl_nil]
        rw [toNat_digitChar _ (Nat.mod_lt _ (by omega))]
        omega

theorem natToChars_spec (n : Nat) :
    natToChars n ≠ [] ∧ (∀ c ∈ natToChars n, c.isDigit = true) ∧
      digitsVal (natToChars n) = n :=
  natToCharsFuel_spec (n + 1) n (Nat.lt_succ_self n)

theorem takeDigits_append (ds : List Char) (rest : List Char)
    (hds : ∀ c ∈ ds, c.isDigit = true) (hrest : NumGuard rest) :
    takeDigits (ds ++ rest) = (ds, rest) := by
  induction ds with
  | nil =>
    simp only [List.nil_append]
    match rest, hrest with
    | [], _ => rfl
    | c :: r, hrest =>
      have : c.isDigit = false := hrest c rfl
      simp [takeDigits, this]
  | cons c ds ih =>
    have hc : c.isDigit = true := hds c (List.mem_cons_self c ds)
    simp only [List.cons_append, takeDigits, hc, if_true]
    rw [List.append_eq, ih (fun x hx => hds x (List.mem_cons_of_mem c hx))]

/-- `parseNumber` inverts the decimal rendering of an integer. -/
theorem parseNumber_intToChars (n : Int) (rest : List Char) (hrest : NumGuard rest) :
    parseNumber (intToChars n ++ rest) = some (n, rest) := by
  by_cases hneg : n < 0
  · have hspec := natToChars_spec n.natAbs
    simp only [intToChars, if_pos hneg, List.cons_append, parseNumber, reduceIte]
    rw [takeDigits_append _ _ hspec.2.1 hrest]
    simp only [List.isEmpty_iff, hspec.1, if_false]
    rw [hspec.2.2]
    have : -(n.natAbs : Int) = n := by omega
    rw [this]
  · have hspec := natToChars_spec n.toNat
    have : intToChars n = natToChars n.toNat := by simp [intToChars, hneg]
    rw [this]
    obtain ⟨c, t, hct⟩ := List.exists_cons_of_ne_nil hspec.1
    have hcdig : c.isDigit = true := hspec.2.1 c (by rw [hct]; exact List.mem_cons_self c t)
    have hcne : ¬ c = '-' := isDigit_ne c '-' hcdig (by decide)
    rw [hct]
    simp only [List.cons_append, parseNumber, if_neg hcne]
    rw [show c :: (t ++ rest) = (c :: t) ++ rest from rfl, ← hct,
      takeDigits_append _ _ hspec.2.1 hrest]
    simp only [List.isEmpty_iff, hspec.1, if_false]
    rw [hspec.2.2]
    congr 1
    congr 1
    omega

mutual

/-- Fuel needed by `parseValue` to parse the serialization of a value. -/
def jsonSize : Json → Nat
  | .null => 0
  | .bool _ => 0
  | .num _ => 0
  | .str _ => 0
  | .arr xs => 1 + elemsSize xs
  | .obj kvs => 1 + membersSize kvs

/-- Fuel needed by `parseElems` for a list of array elements. -/
def elemsSize : List Json → Nat
  | [] => 0
  | x :: xs => jsonSize x + 1 + elemsSize xs

/-- Fuel needed by `parseMembers` for a list of object members. -/
def membersSize : List (String × Json) → Nat
  | [] => 0
  | kv :: kvs => jsonSize kv.2 + 1 + membersSize kvs

end

/-- The serialization of any value starts with a character that is
neither `]` nor `}` (either a bracket opener, a quote, a keyword letter,
a minus sign or a digit). -/
theorem dumpJson_cons (j : Json) :
    ∃ c t, dumpJson j = c :: t ∧ c ≠ ']' ∧ c ≠ '}' := by
  cases j with
  | null => exact ⟨'n', _, rfl, by decide, by decide⟩
  | bool b =>
    cases b
    · exact ⟨'f', _, rfl, by decide, by decide⟩
    · exact ⟨'t', _, rfl, by decide, by decide⟩
  | num n =>
    by_cases hneg : n < 0
    · exact ⟨'-', natToChars n.natAbs, by simp [dumpJson, intToChars, hneg], by decide, by decide⟩
    · have hspec := natToChars_spec n.toNat
      obtain ⟨c, t, hct⟩ := List.exists_cons_of_ne_nil hspec.1
      have hcdig : c.isDigit = true := hspec.2.1 c (by rw [hct]; exact List.mem_cons_self c t)
      refine ⟨c, t, ?_, isDigit_ne c ']' hcdig (by decide), isDigit_ne c '}' hcdig (by decide)⟩
      rw [show dumpJson (.num n) = intToChars n from rfl]
      simp [intToChars, hneg, hct]
  | str s => exact ⟨'"', _, rfl, by decide, by decide⟩
  | arr xs => exact ⟨'[', _, rfl, by decide, by decide⟩
  | obj kvs => exact ⟨'{', _, rfl, by decide, by decide⟩

/-- The serialization of the head of an integer rendering. -/
theorem intToChars_cons (n : Int) :
    ∃ c t, intToChars n = c :: t ∧ (c = '-' ∨ c.isDigit = true) := by
  by_cases hneg : n < 0
  · exact ⟨'-', natToChars n.natAbs, by simp [intToChars, hneg], Or.inl rfl⟩
  · have hspec := natToChars_spec n.toNat
    obtain ⟨c, t, hct⟩ := List.exists_cons_of_ne_nil hspec.1
    have hcdig : c.isDigit = true := hspec.2.1 c (by rw [hct]; exact List.mem_cons_self c t)
    exact ⟨c, t, by simp [intToChars, hneg, hct], Or.inr hcdig⟩

/-- `dumpElems` of a non-empty list starts with the first element's
serialization. -/
theorem dumpElems_cons (x : Json) (xs : List Json) :
    ∃ r, dumpElems (x :: xs) = dumpJson x ++ r := by
  cases xs with
  | nil => exact ⟨[], by simp [dumpElems]⟩
  | cons y ys => exact ⟨_, rfl⟩

/-- Unfolding of `parseValue` at `[`. -/
theorem pv_step_lbracket (fuel : Nat) (rest : List Char) :
    parseValue (fuel + 1) ('[' :: rest) =
      (match rest with
      | ']' :: r => some (.arr [], r)
      | _ => (parseElems fuel rest).map fun p => (.arr p.1, p.2)) := rfl

/-- Unfolding of `parseValue` at `{`. -/
theorem pv_step_lbrace (fuel : Nat) (rest : List Char) :
    parseValue (fuel + 1) ('{' :: rest) =
      (match rest with
      | '}' :: r => some (.obj [], r)
      | _ => (parseMembers fuel rest).map fun p => (.obj p.1, p.2)) := rfl

/-- Unfolding of `parseValue` at `"`. -/
theorem pv_step_quote (fuel : Nat) (rest : List Char) :
    parseValue (fuel + 1) ('"' :: rest) =
      (parseStringBody (rest.length + 1) rest).map fun p => (.str (String.mk p.1), p.2) := rfl

/-- Unfolding of `parseValue` at a number. -/
theorem pv_step_number (fuel : Nat) (c : Char) (rest : List Char)
    (h1 : ¬ c = '{') (h2 : ¬ c = '[') (h3 : ¬ c = '"')
    (h4 : ¬ c = 'n') (h5 : ¬ c = 't') (h6 : ¬ c = 'f') :
    parseValue (fuel + 1) (c :: rest) =
      (parseNumber (c :: rest)).map fun p => (.num p.1, p.2) := by
  simp only [parseValue, if_neg h1, if_neg h2, if_neg h3, if_neg h4, if_neg h5, if_neg h6]

theorem numGuard_nil : NumGuard [] := by
  intro x hx
  simp at hx

theorem numGuard_cons (c : Char) (r : List Char) (h : c.isDigit = false) :
    NumGuard (c :: r) := by
  intro x hx
  simp only [List.head?_cons, Option.some.injEq] at hx
  rw [hx] at h
  exact h

/-- Main inversion: with enough fuel, parsing the serialization of a
value (an element list, a member list) followed by arbitrary guarded
input recovers exactly that value and the remaining input. -/
theorem parse_dump_aux : ∀ fuel : Nat,
    (∀ j rest, jsonSize j < fuel → NumGuard rest →
      parseValue fuel (dumpJson j ++ rest) = some (j, rest)) ∧
    (∀ xs rest, xs ≠ [] → elemsSize xs < fuel →
      parseElems fuel (dumpElems xs ++ ']' :: rest) = some (xs, rest)) ∧
    (∀ kvs rest, kvs ≠ [] → membersSize kvs < fuel →
      parseMembers fuel (dumpMembers kvs ++ '}' :: rest) = some (kvs, rest)) := by
  intro fuel
  induction fuel with
  | zero =>
    exact ⟨fun j rest h _ => absurd h (by omega),
      fun xs rest _ h => absurd h (by omega),
      fun kvs rest _ h => absurd h (by omega)⟩
  | succ fuel ih =>
    obtain ⟨ihV, ihE, ihM⟩ := ih
    refine ⟨?_, ?_, ?_⟩
    · intro j rest hsz hng
      cases j with
      | null => simp [dumpJson, nullChars, parseValue]
      | bool b => cases b <;> simp [dumpJson, trueChars, falseChars, parseValue]
      | num n =>
        obtain ⟨c, t, hct, hc⟩ := intToChars_cons n
        have hne : (¬ c = '{') ∧ (¬ c = '[') ∧ (¬ c = '"') ∧ (¬ c = 'n') ∧
            (¬ c = 't') ∧ (¬ c = 'f') := by
          rcases hc with hc | hc
          · subst hc
            exact ⟨by decide, by decide, by decide, by decide, by decide, by decide⟩
          · exact ⟨isDigit_ne c '{' hc (by decide), isDigit_ne c '[' hc (by decide),
              isDigit_ne c '"' hc (by decide), isDigit_ne c 'n' hc (by decide),
              isDigit_ne c 't' hc (by decide), isDigit_ne c 'f' hc (by decide)⟩
        rw [show dumpJson (.num n) = intToChars n from rfl, hct]
        simp only [List.cons_append]
        rw [pv_step_number fuel c _ hne.1 hne.2.1 hne.2.2.1 hne.2.2.2.1
          hne.2.2.2.2.1 hne.2.2.2.2.2]
        rw [show c :: (t ++ rest) = (c :: t) ++ rest from rfl, ← hct,
          parseNumber_intToChars n rest hng]
        rfl
      | str s =>
        rw [show dumpJson (.str s) = dumpString s from rfl,
          show dumpString s ++ rest =
            '"' :: ((s.data.map escapeChar).flatten ++ '"' :: rest) by simp [dumpString]]
        rw [pv_step_quote]
        have hlen : s.data.length < ((s.data.map escapeChar).flatten ++ '"' :: rest).length + 1 := by
          have := length_le_flatten_escape s.data
          simp only [List.length_append, List.length_cons]
          omega
        rw [parseStringBody_dump s.data _ rest hlen]
        rfl
      | arr xs =>
        cases xs with
        | nil =>
          rw [show dumpJson (.arr []) ++ rest = '[' :: ']' :: rest from rfl, pv_step_lbracket]
          rfl
        | cons x xs =>
          rw [show dumpJson (.arr (x :: xs)) = '[' :: dumpElems (x :: xs) ++ [']'] from rfl,
            show ('[' :: dumpElems (x :: xs) ++ [']']) ++ rest =
              '[' :: (dumpElems (x :: xs) ++ ']' :: rest) by simp]
          rw [pv_step_lbracket]
          obtain ⟨r0, hre⟩ := dumpElems_cons x xs
          obtain ⟨c, t, hct, hcne, _⟩ := dumpJson_cons x
          have hshape2 : dumpElems (x :: xs) ++ ']' :: rest =
              c :: (t ++ (r0 ++ ']' :: rest)) := by
            rw [hre, hct]
            simp
          rw [hshape2]
          have hsz2 : elemsSize (x :: xs) < fuel := by
            simp only [jsonSize] at hsz
            omega
          split
          · next r heq =>
            rw [List.cons.injEq] at heq
            exact absurd heq.1 hcne
          · rw [← hshape2, ihE (x :: xs) rest (by simp) hsz2]
            rfl
      | obj kvs =>
        cases kvs with
        | nil =>
          rw [show dumpJson (.obj []) ++ rest = '{' :: '}' :: rest from rfl, pv_step_lbrace]
          rfl
        | cons kv kvs =>
          obtain ⟨k, v⟩ := kv
          rw [show dumpJson (.obj ((k, v) :: kvs)) = '{' :: dumpMembers ((k, v) :: kvs) ++ ['}']
              from rfl,
            show ('{' :: dumpMembers ((k, v) :: kvs) ++ ['}']) ++ rest =
              '{' :: (dumpMembers ((k, v) :: kvs) ++ '}' :: rest) by simp]
          rw [pv_step_lbrace]
          have hms : ∃ r, dumpMembers ((k, v) :: kvs) = dumpString k ++ r := by
            cases kvs with
            | nil => exact ⟨_, rfl⟩
            | cons m ms =>
              exact ⟨':' :: dumpJson v ++ ',' :: dumpMembers (m :: ms), by simp [dumpMembers]⟩
          obtain ⟨r0, hms⟩ := hms
          have hshape2 : dumpMembers ((k, v) :: kvs) ++ '}' :: rest =
              '"' :: ((k.data.map escapeChar).flatten ++ ('"' :: r0 ++ '}' :: rest)) := by
            rw [hms]
            simp [dumpString]
          rw [hshape2]
          have hsz2 : membersSize ((k, v) :: kvs) < fuel := by
            simp only [jsonSize] at hsz
            omega
          split
          · next r heq =>
            rw [List.cons.injEq] at heq
            exact absurd heq.1 (by decide)
          · rw [← hshape2, ihM ((k, v) :: kvs) rest (by simp) hsz2]
            rfl
    · intro xs rest hne hsz
      cases xs with
      | nil => exact absurd rfl hne
      | cons x xs =>
        cases xs with
        | nil =>
          have hszx : jsonSize x < fuel := by
            simp only [elemsSize] at hsz
            omega
          simp only [parseElems]
          rw [show dumpElems [x] = dumpJson x from rfl,
            ihV x (']' :: rest) hszx (numGuard_cons _ _ (by decide))]
          rfl
        | cons y ys =>
          have hszx : jsonSize x < fuel := by
            simp only [elemsSize] at hsz
            omega
          have hszy : elemsSize (y :: ys) < fuel := by
            simp only [elemsSize] at hsz ⊢
            omega
          simp only [parseElems]
          rw [show dumpElems (x :: y :: ys) = dumpJson x ++ ',' :: dumpElems (y :: ys)
              from rfl]
          rw [List.append_assoc, List.cons_append]
          rw [ihV x _ hszx (numGuard_cons _ _ (by decide))]
          simp only []
          rw [ihE (y :: ys) rest (by simp) hszy]
          rfl
    · intro kvs rest hne hsz
      cases kvs with
      | nil => exact absurd rfl hne
      | cons kv kvs =>
        obtain ⟨k, v⟩ := kv
        have hszv : jsonSize v < fuel := by
          simp only [membersSize] at hsz
          omega
        cases kvs with
        | nil =>
          have hshape : dumpMembers [(k, v)] ++ '}' :: rest =
              '"' :: ((k.data.map escapeChar).flatten ++ '"' ::
                (':' :: (dumpJson v ++ '}' :: rest))) := by
            simp [dumpMembers, dumpString]
          rw [hshape]
          simp only [parseMembers]
          have hlen : k.data.length <
              ((k.data.map escapeChar).flatten ++ '"' ::
                (':' :: (dumpJson v ++ '}' :: rest))).length + 1 := by
            have := length_le_flatten_escape k.data
            simp only [List.length_append, List.length_cons]
            omega
          rw [parseStringBody_dump k.data _ _ hlen]
          simp only []
          rw [ihV v ('}' :: rest) hszv (numGuard_cons _ _ (by decide))]
          rfl
        | cons m ms =>
          have hszm : membersSize (m :: ms) < fuel := by
            simp only [membersSize] at hsz ⊢
            omega
          have hshape : dumpMembers ((k, v) :: m :: ms) ++ '}' :: rest =
              '"' :: ((k.data.map escapeChar).flatten ++ '"' ::
                (':' :: (dumpJson v ++ ',' :: (dumpMembers (m :: ms) ++ '}' :: rest)))) := by
            simp [dumpMembers, dumpString]
          rw [hshape]
          simp only [parseMembers]
          have hlen : k.data.length <
              ((k.data.map escapeChar).flatten ++ '"' ::
                (':' :: (dumpJson v ++ ',' ::
                  (dumpMembers (m :: ms) ++ '}' :: rest)))).length + 1 := by
            have := length_le_flatten_escape k.data
            simp only [List.length_append, List.length_cons]
            omega
          rw [parseStringBody_dump k.data _ _ hlen]
          simp only []
          rw [ihV v _ hszv (numGuard_cons _ _ (by decide))]
          simp only []
          rw [ihM (m :: ms) rest (by simp) hszm]
          rfl

/-- Induction principle for the nested inductive `Json`. -/
theorem Json.recOnMem {motive : Json → Prop}
    (hnull : motive .null) (hbool : ∀ b, motive (.bool b))
    (hnum : ∀ n, motive (.num n)) (hstr : ∀ s, motive (.str s))
    (harr : ∀ xs, (∀ x ∈ xs, motive x) → motive (.arr xs))
    (hobj : ∀ kvs, (∀ kv ∈ kvs, motive kv.2) → motive (.obj kvs)) :
    ∀ j, motive j
  | .null => hnull
  | .bool b => hbool b
  | .num n => hnum n
  | .str s => hstr s
  | .arr xs => harr xs (fun x hx =>
      have : sizeOf x < 1 + sizeOf xs := by
        have := List.sizeOf_lt_of_mem hx
        omega
      Json.recOnMem hnull hbool hnum hstr harr hobj x)
  | .obj kvs => hobj kvs (fun kv hkv =>
      have : sizeOf kv.2 < 1 + sizeOf kvs := by
        have h1 := List.sizeOf_lt_of_mem hkv
        have h2 : sizeOf kv.2 < sizeOf kv := by
          obtain ⟨k, v⟩ := kv
          simp only [Prod.mk.sizeOf_spec]
          omega
        omega
      Json.recOnMem hnull hbool hnum hstr harr hobj kv.2)
termination_by j => sizeOf j

theorem elemsSize_le (xs : List Json)
    (h : ∀ x ∈ xs, jsonSize x ≤ (dumpJson x).length) :
    elemsSize xs ≤ 1 + (dumpElems xs).length := by
  induction xs with
  | nil => simp [elemsSize, dumpElems]
  | cons x xs ih =>
    cases xs with
    | nil =>
      have := h x (List.mem_cons_self x [])
      simp only [elemsSize, dumpElems]
      omega
    | cons y ys =>
      have hx := h x (List.mem_cons_self x (y :: ys))
      have hr := ih (fun z hz => h z (List.mem_cons_of_mem x hz))
      simp only [elemsSize, dumpElems, List.length_append, List.length_cons] at *
      omega

theorem membersSize_le (kvs : List (String × Json))
    (h : ∀ kv ∈ kvs, jsonSize kv.2 ≤ (dumpJson kv.2).length) :
    membersSize kvs ≤ 1 + (dumpMembers kvs).length := by
  induction kvs with
  | nil => simp [membersSize, dumpMembers]
  | cons kv kvs ih =>
    obtain ⟨k, v⟩ := kv
    cases kvs with
    | nil =>
      have := h (k, v) (List.mem_cons_self (k, v) [])
      simp only [membersSize, dumpMembers, List.length_append, List.length_cons] at *
      omega
    | cons m ms =>
      have hv := h (k, v) (List.mem_cons_self (k, v) (m :: ms))
      have hr := ih (fun z hz => h z (List.mem_cons_of_mem (k, v) hz))
      simp only [membersSize, dumpMembers, List.length_append, List.length_cons] at *
      omega

theorem jsonSize_le (j : Json) : jsonSize j ≤ (dumpJson j).length := by
  refine Json.recOnMem (motive := fun j => jsonSize j ≤ (dumpJson j).length)
    ?_ ?_ ?_ ?_ ?_ ?_ j
  · simp [jsonSize]
  · intro b
    simp [jsonSize]
  · intro n
    simp [jsonSize]
  · intro s
    simp [jsonSize]
  · intro xs h
    have := elemsSize_le xs h
    simp only [jsonSize, dumpJson, List.length_append, List.length_cons]
    omega
  · intro kvs h
    have := membersSize_le kvs h
    simp only [jsonSize, dumpJson, List.length_append, List.length_cons]
    omega

/-- **Round-trip at the JSON level**: `json.loads` inverts compact
`json.dumps` on every JSON value. -/
theorem parseJson_dumpJson (j : Json) : parseJson (dumpJson j) = some j := by
  unfold parseJson
  have h1 : jsonSize j < (dumpJson j).length + 1 :=
    Nat.lt_succ_of_le (jsonSize_le j)
  have h2 := (parse_dump_aux ((dumpJson j).length + 1)).1 j [] h1 numGuard_nil
  rw [List.append_nil] at h2
  rw [h2]

/-! ## Base64 (`base64.b64encode` / `base64.b64decode`)

Standard-alphabet base64 over byte lists.  The decoder is modelled on
well-formed input (quads of alphabet characters with trailing `=`
padding); CPython's lenient discarding of non-alphabet characters only
widens the domain and never changes the value on the encoder's image. -/

/-- The standard base64 alphabet. -/
def b64Char (n : Nat) : Char :=
  (("ABCDEFGHIJKLMNOPQRSTUVWXYZabcdefghijklmnopqrstuvwxyz0123456789+/" : String).data).getD n 'A'

/-- Index of a character in the base64 alphabet. -/
def b64Val (c : Char) : Option Nat :=
  if 'A' ≤ c ∧ c ≤ 'Z' then some (c.toNat - 65)
  else if 'a' ≤ c ∧ c ≤ 'z' then some (c.toNat - 71)
  else if '0' ≤ c ∧ c ≤ '9' then some (c.toNat + 4)
  else if c = '+' then some 62
  else if c = '/' then some 63
  else none

/-- `base64.b64encode`: three bytes become four alphabet characters,
with `=` padding for a final partial group. -/
def b64Encode : List Nat → List Char
  | b1 :: b2 :: b3 :: rest =>
    b64Char (b1 / 4) :: b64Char (b1 % 4 * 16 + b2 / 16) ::
      b64Char (b2 % 16 * 4 + b3 / 64) :: b64Char (b3 % 64) :: b64Encode rest
  | [b1, b2] =>
    [b64Char (b1 / 4), b64Char (b1 % 4 * 16 + b2 / 16), b64Char (b2 % 16 * 4), '=']
  | [b1] => [b64Char (b1 / 4), b64Char (b1 % 4 * 16), '=', '=']
  | [] => []

/-- `base64.b64decode` on well-formed input. -/
def b64Decode : List Char → Option (List Nat)
  | [] => some []
  | c1 :: c2 :: c3 :: c4 :: rest => do
    let v1 ← b64Val c1
    let v2 ← b64Val c2
    if c3 = '=' then
      if c4 = '=' ∧ rest = [] then some [v1 * 4 + v2 / 16] else none
    else do
      let v3 ← b64Val c3
      if c4 = '=' then
        if rest = [] then some [v1 * 4 + v2 / 16, v2 % 16 * 16 + v3 / 4] else none
      else do
        let v4 ← b64Val c4
        let bs ← b64Decode rest
        some ((v1 * 4 + v2 / 16) :: (v2 % 16 * 16 + v3 / 4) :: (v3 % 4 * 64 + v4) :: bs)
  | _ => none

theorem b64Val_b64Char : ∀ n, n < 64 → b64Val (b64Char n) = some n := by decide

theorem b64Char_ne_pad : ∀ n, n < 64 → b64Char n ≠ '=' := by decide

/-- Base64 decoding inverts encoding on byte lists. -/
theorem b64Decode_b64Encode (bs : List Nat) (h : ∀ b ∈ bs, b < 256) :
    b64Decode (b64Encode bs) = some bs := by
  induction bs using b64Encode.induct with
  | case1 b1 b2 b3 rest ih =>
    have hb1 : b1 < 256 := h b1 (by simp)
    have hb2 : b2 < 256 := h b2 (by simp)
    have hb3 : b3 < 256 := h b3 (by simp)
    have h1 : b1 / 4 < 64 := by omega
    have h2 : b1 % 4 * 16 + b2 / 16 < 64 := by omega
    have h3 : b2 % 16 * 4 + b3 / 64 < 64 := by omega
    have h4 : b3 % 64 < 64 := by omega
    rw [b64Encode, b64Decode, b64Val_b64Char _ h1, b64Val_b64Char _ h2]
    simp only [Option.bind_eq_bind, Option.some_bind]
    rw [if_neg (b64Char_ne_pad _ h3), b64Val_b64Char _ h3]
    simp only [Option.some_bind]
    rw [if_neg (b64Char_ne_pad _ h4), b64Val_b64Char _ h4]
    simp only [Option.some_bind]
    rw [ih (fun b hb => h b (by simp [hb]))]
    simp only [Option.some_bind, Option.some.injEq]
    congr 1
    · omega
    congr 1
    · omega
    congr 1
    omega
  | case2 b1 b2 =>
    have hb1 : b1 < 256 := h b1 (by simp)
    have hb2 : b2 < 256 := h b2 (by simp)
    have h1 : b1 / 4 < 64 := by omega
    have h2 : b1 % 4 * 16 + b2 / 16 < 64 := by omega
    have h3 : b2 % 16 * 4 < 64 := by omega
    rw [b64Encode, b64Decode, b64Val_b64Char _ h1, b64Val_b64Char _ h2]
    simp only [Option.bind_eq_bind, Option.some_bind]
    rw [if_neg (b64Char_ne_pad _ h3), b64Val_b64Char _ h3]
    simp only [Option.some_bind]
    simp only [if_true]
    simp only [Option.some.injEq]
    congr 1
    · omega
    congr 1
    omega
  | case3 b1 =>
    have hb1 : b1 < 256 := h b1 (by simp)
    have h1 : b1 / 4 < 64 := by omega
    have h2 : b1 % 4 * 16 < 64 := by omega
    rw [b64Encode, b64Decode, b64Val_b64Char _ h1, b64Val_b64Char _ h2]
    simp only [Option.bind_eq_bind, Option.some_bind]
    simp only [and_self, if_true]
    simp only [Option.some.injEq]
    congr 1
    omega
  | case4 => rfl

/-! ## Bridging strings and bytes

`json.dumps` output is pure ASCII under `ensure_ascii=True`, where the
UTF-8 byte encoding used by `str.encode()`/`bytes.decode()` is the
identity on code points. -/

/-- `str.encode('utf-8')` on ASCII text. -/
def strBytes (cs : List Char) : List Nat := cs.map Char.toNat

/-- `bytes.decode('utf-8')` restricted to ASCII bytes; multi-byte
sequences are modelled as failure (none arise from the encoder, whose
output is ASCII, and every failure path below maps to the same error
handling as a genuine decode error). -/
def asciiDecode (bs : List Nat) : Option (List Char) :=
  if bs.all (fun b => b < 128) then some (bs.map Char.ofNat) else none

theorem asciiDecode_strBytes (cs : List Char) (h : ∀ c ∈ cs, c.toNat < 128) :
    asciiDecode (strBytes cs) = some cs := by
  unfold asciiDecode strBytes
  rw [if_pos]
  · rw [List.map_map]
    congr 1
    have : ∀ c : Char, (Char.ofNat ∘ Char.toNat) c = id c := fun c => Char.ofNat_toNat c
    rw [List.map_congr_left fun c _ => this c, List.map_id]
  · rw [List.all_eq_true]
    intro b hb
    rw [List.mem_map] at hb
    obtain ⟨c, hc, rfl⟩ := hb
    simpa using h c hc

/-! ### ASCII bounds for serializer output (`ensure_ascii=True`) -/

theorem hexDigit_ascii (n : Nat) : (hexDigit n).toNat < 128 := by
  rcases Nat.lt_or_ge n 16 with h | h
  · exact (by decide : ∀ m, m < 16 → (hexDigit m).toNat < 128) n h
  · unfold hexDigit
    rw [List.getD_eq_default]
    · decide
    · simpa using h

theorem uEscape_ascii (n : Nat) : ∀ x ∈ uEscape n, x.toNat < 128 := by
  intro x hx
  rcases List.mem_cons.mp hx with rfl | hx
  · decide
  rcases List.mem_cons.mp hx with rfl | hx
  · decide
  simp only [uEscapeDigits, List.mem_cons, List.not_mem_nil, or_false] at hx
  rcases hx with rfl | rfl | rfl | rfl <;> exact hexDigit_ascii _

theorem pair_ascii (a b x : Char) (ha : a.toNat < 128) (hb : b.toNat < 128)
    (hx : x ∈ [a, b]) : x.toNat < 128 := by
  rcases List.mem_cons.mp hx with rfl | hx
  · exact ha
  · rw [List.mem_singleton.mp hx]
    exact hb

theorem escapeChar_ascii (c : Char) : ∀ x ∈ escapeChar c, x.toNat < 128 := by
  unfold escapeChar
  split_ifs with h1 h2 h3 h4 h5 h6 h7 h8 h9 <;> intro x hx
  · exact pair_ascii _ _ x (by decide) (by decide) hx
  · exact pair_ascii _ _ x (by decide) (by decide) hx
  · exact pair_ascii _ _ x (by decide) (by decide) hx
  · exact pair_ascii _ _ x (by decide) (by decide) hx
  · exact pair_ascii _ _ x (by decide) (by decide) hx
  · exact pair_ascii _ _ x (by decide) (by decide) hx
  · exact pair_ascii _ _ x (by decide) (by decide) hx
  · rw [List.mem_singleton.mp hx]
    omega
  · exact uEscape_ascii _ x hx
  · rcases List.mem_append.mp hx with h | h <;> exact uEscape_ascii _ x h

theorem dumpString_ascii (s : String) : ∀ x ∈ dumpString s, x.toNat < 128 := by
  intro x hx
  unfold dumpString at hx
  rcases List.mem_cons.mp hx with rfl | hx2
  · decide
  · rcases List.mem_append.mp hx2 with hx3 | hx3
    · rcases List.mem_flatten.mp hx3 with ⟨l, hl, hxl⟩
      rcases List.mem_map.mp hl with ⟨c, hc, rfl⟩
      exact escapeChar_ascii c x hxl
    · rw [List.mem_singleton.mp hx3]
      decide

theorem isDigit_ascii (c : Char) (h : c.isDigit = true) : c.toNat < 128 := by
  unfold Char.isDigit at h
  simp only [Bool.and_eq_true, decide_eq_true_eq] at h
  have h2 : c.toNat ≤ 57 := h.2
  omega

theorem intToChars_ascii (n : Int) : ∀ x ∈ intToChars n, x.toNat < 128 := by
  intro x hx
  unfold intToChars at hx
  split_ifs at hx with h
  · rcases List.mem_cons.mp hx with rfl | hx
    · decide
    · exact isDigit_ascii x ((natToChars_spec n.natAbs).2.1 x hx)
  · exact isDigit_ascii x ((natToChars_spec n.toNat).2.1 x hx)

theorem dumpElems_ascii (xs : List Json)
    (h : ∀ x ∈ xs, ∀ c ∈ dumpJson x, c.toNat < 128) :
    ∀ c ∈ dumpElems xs, c.toNat < 128 := by
  induction xs with
  | nil => simp [dumpElems]
  | cons x xs ih =>
    cases xs with
    | nil =>
      simpa [dumpElems] using h x (List.mem_cons_self x [])
    | cons y ys =>
      intro c hc
      rw [show dumpElems (x :: y :: ys) = dumpJson x ++ ',' :: dumpElems (y :: ys)
        from rfl] at hc
      simp only [List.mem_append, List.mem_cons] at hc
      rcases hc with hc | rfl | hc
      · exact h x (List.mem_cons_self x (y :: ys)) c hc
      · decide
      · exact ih (fun z hz => h z (List.mem_cons_of_mem x hz)) c hc

theorem dumpMembers_ascii (kvs : List (String × Json))
    (h : ∀ kv ∈ kvs, ∀ c ∈ dumpJson kv.2, c.toNat < 128) :
    ∀ c ∈ dumpMembers kvs, c.toNat < 128 := by
  induction kvs with
  | nil => simp [dumpMembers]
  | cons kv kvs ih =>
    obtain ⟨k, v⟩ := kv
    cases kvs with
    | nil =>
      intro c hc
      rw [show dumpMembers [(k, v)] = dumpString k ++ ':' :: dumpJson v from rfl] at hc
      simp only [List.mem_append, List.mem_cons] at hc
      rcases hc with hc | rfl | hc
      · exact dumpString_ascii k c hc
      · decide
      · exact h (k, v) (List.mem_cons_self (k, v) []) c hc
    | cons m ms =>
      intro c hc
      rw [show dumpMembers ((k, v) :: m :: ms) =
        dumpString k ++ ':' :: dumpJson v ++ ',' :: dumpMembers (m :: ms) from rfl] at hc
      simp only [List.mem_append, List.mem_cons] at hc
      rcases hc with (hc | rfl | hc) | rfl | hc
      · exact dumpString_ascii k c hc
      · decide
      · exact h (k, v) (List.mem_cons_self (k, v) (m :: ms)) c hc
      · decide
      · exact ih (fun z hz => h z (List.mem_cons_of_mem (k, v) hz)) c hc

/-- Every character of compact `json.dumps` output is ASCII. -/
theorem dumpJson_ascii (j : Json) : ∀ c ∈ dumpJson j, c.toNat < 128 := by
  refine Json.recOnMem (motive := fun j => ∀ c ∈ dumpJson j, c.toNat < 128)
    ?_ ?_ ?_ ?_ ?_ ?_ j
  · intro c hc
    simp only [dumpJson, nullChars, List.mem_cons, List.not_mem_nil, or_false] at hc
    rcases hc with rfl | rfl | rfl | rfl <;> decide
  · intro b c hc
    cases b
    · simp only [dumpJson, falseChars, List.mem_cons, List.not_mem_nil, or_false] at hc
      rcases hc with rfl | rfl | rfl | rfl | rfl <;> decide
    · simp only [dumpJson, trueChars, List.mem_cons, List.not_mem_nil, or_false] at hc
      rcases hc with rfl | rfl | rfl | rfl <;> decide
  · intro n
    exact intToChars_ascii n
  · intro s
    exact dumpString_ascii s
  · intro xs h c hc
    rw [show dumpJson (.arr xs) = '[' :: dumpElems xs ++ [']'] from rfl] at hc
    rcases List.mem_cons.mp hc with rfl | hc2
    · decide
    · rcases List.mem_append.mp hc2 with hc3 | hc3
      · exact dumpElems_ascii xs h c hc3
      · rw [List.mem_singleton.mp hc3]
        decide
  · intro kvs h c hc
    rw [show dumpJson (.obj kvs) = '{' :: dumpMembers kvs ++ ['}'] from rfl] at hc
    rcases List.mem_cons.mp hc with rfl | hc2
    · decide
    · rcases List.mem_append.mp hc2 with hc3 | hc3
      · exact dumpMembers_ascii kvs h c hc3
      · rw [List.mem_singleton.mp hc3]
        decide

/-! ## The wire codec -/

/-- `_encode_payment_payload`: compact JSON, UTF-8 bytes, base64. -/
def encodeWire (j : Json) : List Char :=
  b64Encode (strBytes (dumpJson j))

/-- The server-side decode of the `X-PAYMENT` header value:
`base64.b64decode(header).decode('utf-8')` followed by `json.loads`. -/
def decodeWire (s : List Char) : Option Json := do
  let bs ← b64Decode s
  let cs ← asciiDecode bs
  parseJson cs

/-- **Wire round-trip**: the server-side decode recovers exactly the
JSON document the client encoded. -/
theorem decodeWire_encodeWire (j : Json) : decodeWire (encodeWire j) = some j := by
  unfold decodeWire encodeWire
  rw [b64Decode_b64Encode]
  · simp only [Option.bind_eq_bind, Option.some_bind]
    rw [asciiDecode_strBytes _ (dumpJson_ascii j)]
    simp only [Option.some_bind]
    exact parseJson_dumpJson j
  · intro b hb
    simp only [strBytes, List.mem_map] at hb
    obtain ⟨c, hc, rfl⟩ := hb
    have := dumpJson_ascii j c hc
    omega

/-! # The X402 payment data model

Mirrors `custom_x402_client.py` (client) and `content.py` /
`payment_service.py` (server). -/

/-- The authorization object built by `_create_authorization_object`:
six string fields (`from`/`to`/`value`/`validAfter`/`validBefore`/
`nonce`). -/
structure AuthorizationObj where
  fromAddr : String
  toAddr : String
  value : String
  validAfter : String
  validBefore : String
  nonce : String
deriving DecidableEq

/-- A structurally valid PaymentPayload (spec §3): scheme, network,
signature, a six-field authorization, and an optional resource.  The
protocol version is not a field because
`_create_payment_payload_structure` hard-codes `"x402Version": 1`. -/
structure PaymentPayload where
  scheme : String
  network : String
  signature : String
  authorization : AuthorizationObj
  resource : Option String
deriving DecidableEq

/-- `_create_payment_payload_structure`: the JSON document the client
sends.  Insertion order follows the Python dict literal; the `resource`
key is appended only when `resource` is truthy — Python's
`if resource:` drops both `None` and the empty string. -/
def paymentPayloadJson (p : PaymentPayload) : Json :=
  let base : List (String × Json) :=
    [("x402Version", .num 1), ("scheme", .str p.scheme), ("network", .str p.network),
     ("payload", .obj [("signature", .str p.signature),
       ("authorization", .obj [("from", .str p.authorization.fromAddr),
         ("to", .str p.authorization.toAddr),
         ("value", .str p.authorization.value),
         ("validAfter", .str p.authorization.validAfter),
         ("validBefore", .str p.authorization.validBefore),
         ("nonce", .str p.authorization.nonce)])])]
  match p.resource with
  | some r => if r = "" then .obj base else .obj (base ++ [("resource", .str r)])
  | none => .obj base

/-- `_encode_payment_payload` applied to the payload structure: compact
JSON, UTF-8, base64. -/
def encodePaymentPayload (p : PaymentPayload) : List Char :=
  encodeWire (paymentPayloadJson p)

/-- String-typed lookup, as the server reads the decoded fields. -/
def jsonGetStr (j : Json) (k : String) : Option String :=
  match jsonGet j k with
  | some (.str s) => some s
  | _ => none

/-- Modelled from the spec: the repository has no single function that
rebuilds a `PaymentPayload` from the wire string.  The server decodes
the header with `base64.b64decode` + `json.loads`
(`get_client_from_payment`) and reads exactly these fields from the
document (`PaymentService._create_facilitator_payload`); spec §4.3
additionally requires decode to validate `x402Version == 1` and the
presence of `payload.signature` and `payload.authorization` with all
six fields before returning success.  This decoder composes those
pieces. -/
def decodePaymentPayload (s : List Char) : Option PaymentPayload := do
  let j ← decodeWire s
  if pyEqOne (jsonGet j "x402Version") then
    let scheme ← jsonGetStr j "scheme"
    let network ← jsonGetStr j "network"
    let inner ← jsonGet j "payload"
    let signature ← jsonGetStr inner "signature"
    let auth ← jsonGet inner "authorization"
    let fromAddr ← jsonGetStr auth "from"
    let toAddr ← jsonGetStr auth "to"
    let value ← jsonGetStr auth "value"
    let validAfter ← jsonGetStr auth "validAfter"
    let validBefore ← jsonGetStr auth "validBefore"
    let nonce ← jsonGetStr auth "nonce"
    let authObj : AuthorizationObj :=
      { fromAddr := fromAddr, toAddr := toAddr, value := value,
        validAfter := validAfter, validBefore := validBefore, nonce := nonce }
    some { scheme := scheme, network := network, signature := signature,
           authorization := authObj, resource := jsonGetStr j "resource" }
  else none

/-- What the round-trip actually preserves: every field, except that an
empty-string `resource` is dropped by the encoder's `if resource:`
guard. -/
theorem decodePaymentPayload_encode (p : PaymentPayload) :
    decodePaymentPayload (encodePaymentPayload p) =
      some { p with resource := match p.resource with
        | some r => if r = "" then none else some r
        | none => none } := by
  have h := decodeWire_encodeWire (paymentPayloadJson p)
  unfold decodePaymentPayload encodePaymentPayload
  rw [h]
  simp only [Option.bind_eq_bind, Option.some_bind]
  rcases hres : p.resource with _ | r
  · simp only [paymentPayloadJson, hres]
    rfl
  · by_cases hr : r = ""
    · simp only [paymentPayloadJson, hres, if_pos hr, hr]
      rfl
    · simp only [paymentPayloadJson, hres, if_neg hr]
      rfl

/-! ## Client: challenge parsing, requirement extraction, payload build

Mirrors `CustomX402Client` in `custom_x402_client.py`. -/

/-- Errors raised while handling a 402 challenge (all surface as
`PaymentRequestError` / `PaymentPayloadError` strings in Python; the
constructors record which raise fired). -/
inductive ClientError where
  | invalidJson
  | unsupportedVersion
  | noSchemes
  | badAccepts
  | missingParams
  | signingFailed
  | successBodyNotJson
deriving DecidableEq

/-- The effective protocol version read by `_parse_x402_response`:
`x402_data.get('x402Version') or x402_data.get('x402_version')` —
Python `or` falls through to the snake_case alias whenever the
camelCase value is absent **or falsy**. -/
def effectiveVersion (d : Json) : Option Json :=
  match jsonGet d "x402Version" with
  | some v => if jsonTruthy v then some v else jsonGet d "x402_version"
  | none => jsonGet d "x402_version"

/-- `_parse_x402_response`: `none` models a body on which
`response.json()` raises.  A version not Python-equal to `1` raises
`Unsupported X402 version` (re-wrapped by the enclosing `except` but
still a `PaymentRequestError`). -/
def parseX402Response (body : Option Json) : Except ClientError Json :=
  match body with
  | none => .error .invalidJson
  | some d => if pyEqOne (effectiveVersion d) then .ok d else .error .unsupportedVersion

/-- The seven-key dict `_extract_payment_requirements` returns; every
key is always present, each value possibly `None` (here `none`). -/
structure ExtractedRequirements where
  scheme : Option Json
  network : Option Json
  amount : Option Json
  recipient : Option Json
  resource : Option Json
  asset : Option Json
  extra : Option Json

/-- `_extract_payment_requirements`: an absent or falsy `accepts` raises
`No payment schemes accepted`; otherwise the entry at index 0 is used.
A truthy non-array `accepts` (Python would duck-type into it) is
modelled as a failure as well; no caller in the repository produces
one. -/
def extractPaymentRequirements (x402Data : Json) : Except ClientError ExtractedRequirements :=
  let accepts := jsonGet x402Data "accepts"
  if ¬ jsonTruthyOpt accepts then .error .noSchemes
  else
    match accepts with
    | some (.arr (r :: _)) =>
      .ok { scheme := jsonGet r "scheme"
            network := jsonGet r "network"
            amount := jsonGet r "maxAmountRequired"
            recipient :=
              match jsonGet r "payTo" with
              | some v => some v
              | none => jsonGet r "pay_to"
            resource := jsonGet r "resource"
            asset := jsonGet r "asset"
            extra := jsonGet r "extra" }
    | _ => .error .badAccepts

/-- The hard-coded requirements `make_payment_request` substitutes when
extraction fails ("Fallback to config values"); scheme and network come
from `config.get_x402_config()`, amount is `amount or "10000"`, and the
recipient and asset are literal addresses.  The fallback dict has no
`resource`/`extra` keys. -/
def fallbackRequirements (cfgScheme cfgNetwork : String) (amountArg : Option String) :
    ExtractedRequirements :=
  { scheme := some (.str cfgScheme)
    network := some (.str cfgNetwork)
    amount := some (.str (match amountArg with
      | some a => if a = "" then "10000" else a
      | none => "10000"))
    recipient := some (.str "0xe93cb61e3f327F344c09D5dFffE25fb0B0cFA65d")
    resource := none
    asset := some (.str "0x036CbD53842c5426634e7929541eC2318f3dCF7e")
    extra := none }

/-- The authorization dict built by `_create_authorization_object`:
`from` is the CDP account address, `to` and `value` are whatever the
requirement supplied, `validAfter` is the literal `"0"`, `validBefore`
is `str(deadline)` and `nonce` the fresh random hex string. -/
structure AuthorizationDict where
  fromAddr : String
  toAddr : Json
  value : Json
  validAfter : String
  validBefore : String
  nonce : String

/-- `_create_authorization_object recipient amount deadline` (the
account address and the generated nonce are explicit inputs here). -/
def createAuthorizationObject (selfAddr : String) (recipient amount : Json)
    (deadline : Nat) (nonce : String) : AuthorizationDict :=
  { fromAddr := selfAddr
    toAddr := recipient
    value := amount
    validAfter := "0"
    validBefore := toString deadline
    nonce := nonce }

/-- `_create_payment_payload` up to the signing call: the only
validation is Python truthiness of the four required parameters
(`if not all([scheme, network, amount, recipient])`); on success the
authorization that will be signed is built with
`deadline = int(time.time()) + 60`. -/
def prepareAuthorization (selfAddr : String) (scheme network amount recipient : Option Json)
    (now : Nat) (nonce : String) : Except ClientError AuthorizationDict :=
  if jsonTruthyOpt scheme ∧ jsonTruthyOpt network ∧ jsonTruthyOpt amount ∧
      jsonTruthyOpt recipient then
    .ok (createAuthorizationObject selfAddr (recipient.getD .null) (amount.getD .null)
      (now + 60) nonce)
  else .error .missingParams

/-- The requirements `make_payment_request` actually uses for a 402
body: the extracted ones, or the fallback on any extraction failure. -/
def resolvedRequirements (cfgScheme cfgNetwork : String) (paymentData : Json)
    (amountArg : Option String) : ExtractedRequirements :=
  match extractPaymentRequirements paymentData with
  | .ok r => r
  | .error _ => fallbackRequirements cfgScheme cfgNetwork amountArg

/-- The authorization `make_payment_request` builds for a 402 body
(`discovered_cost` is the resolved requirements' amount). -/
def clientAuthorization (cfgScheme cfgNetwork selfAddr : String) (paymentData : Json)
    (amountArg : Option String) (now : Nat) (nonce : String) :
    Except ClientError AuthorizationDict :=
  let reqs := resolvedRequirements cfgScheme cfgNetwork paymentData amountArg
  prepareAuthorization selfAddr reqs.scheme reqs.network reqs.amount reqs.recipient now nonce

/-- One HTTP response as the client sees it: status code, parsed JSON
body (`none` when parsing would raise) and raw text. -/
structure HttpResponse where
  status : Nat
  body : Option Json
  text : String

/-- The dictionaries `make_payment_request` returns, one constructor
per `return` site. -/
inductive RequestOutcome where
  | paid (data : Json) (cost : Option Json)
  | paymentFailed (status : Nat) (details : String)
  | noPaymentRequired (status : Nat) (raw : String)
  | errored (e : ClientError)

/-- The `"success"` flag of the returned dictionary. -/
def outcomeSuccess : RequestOutcome → Bool
  | .paid _ _ => true
  | .paymentFailed _ _ => false
  | .noPaymentRequired _ _ => true
  | .errored _ => false

/-- `make_payment_request`: the full client flow of one call.  The
externals — wall clock, fresh nonce, the signer verdict and the two
HTTP responses — are explicit parameters.  On a 402 the requirements
are extracted (falling back to config values on failure), the payload
is built and signed, and the request is retried with the payment
header; any raise inside the `try` lands in the outer `except`,
returning a dictionary with `success` false and the error string. -/
def makePaymentRequest (cfgScheme cfgNetwork selfAddr : String) (probe : HttpResponse)
    (amountArg : Option String) (now : Nat) (nonce : String)
    (signResult : Except Unit String) (payResponse : HttpResponse) : RequestOutcome :=
  if probe.status = 402 then
    match probe.body with
    | none => .errored .invalidJson
    | some paymentData =>
      let reqs := resolvedRequirements cfgScheme cfgNetwork paymentData amountArg
      let discoveredCost := reqs.amount
      match prepareAuthorization selfAddr reqs.scheme reqs.network discoveredCost
          reqs.recipient now nonce with
      | .error e => .errored e
      | .ok _auth =>
        match signResult with
        | .error _ => .errored .signingFailed
        | .ok _sig =>
          if payResponse.status = 200 then
            match payResponse.body with
            | some d => .paid d discoveredCost
            | none => .errored .successBodyNotJson
          else .paymentFailed payResponse.status payResponse.text
  else .noPaymentRequired probe.status probe.text

/-! ## Server: payer extraction and facilitator verification -/

/-- The chained lookup `payment_data.get('payload', ...)` then
`.get('authorization', ...)` then `.get('from')`. -/
def authFrom (j : Json) : Option Json := do
  let pl ← jsonGet j "payload"
  let auth ← jsonGet pl "authorization"
  jsonGet auth "from"

/-- `get_client_from_payment`: extract the payer address from the
`x-payment` header (`none` models an absent header).  Any failure —
bad base64, bad UTF-8, bad JSON, wrong shapes, a non-string or
non-`0x` `from` — yields `"unknown"`. -/
def getClientFromPayment (header : Option String) : String :=
  match header with
  | none => "unknown"
  | some h =>
    if h = "" then "unknown"
    else
      match decodeWire h.data with
      | none => "unknown"
      | some j =>
        match authFrom j with
        | some (.str a) =>
          if a ≠ "" ∧ a.startsWith "0x" then a else "unknown"
        | some _ => "unknown"
        | none => "unknown"

/-- A facilitator interaction as `PaymentService.verify_payment` sees
it: an exception (timeout/connection failure) or a reply with a status
code and an optionally-JSON body. -/
inductive FacilitatorReply where
  | timeout
  | reply (status : Nat) (body : Option Json)

/-- `PaymentService.verify_payment`: the value returned to the caller.
A 200 JSON reply returns the `isValid` field (defaulting to `False`);
every other path — exception, non-200 status, non-JSON body — returns
the bare Python `False`.  No reason code is part of the return type. -/
def verifyPayment : FacilitatorReply → Json
  | .timeout => .bool false
  | .reply status body =>
    if status = 200 then
      match body with
      | some j => (jsonGet j "isValid").getD (.bool false)
      | none => .bool false
    else .bool false

/-! # Claims -/

/-- A sample six-field authorization used in concrete instances. -/
def sampleAuth : AuthorizationObj :=
  { fromAddr := "0xClient", toAddr := "0xServer", value := "10000",
    validAfter := "0", validBefore := "1060", nonce := "0xabc" }

/-- Extraction on a challenge whose `accepts` is a non-empty array
succeeds with the fields of the entry at index 0. -/
theorem extract_ok (d req : Json) (rs : List Json)
    (hacc : jsonGet d "accepts" = some (.arr (req :: rs))) :
    extractPaymentRequirements d =
      .ok { scheme := jsonGet req "scheme", network := jsonGet req "network",
            amount := jsonGet req "maxAmountRequired",
            recipient :=
              match jsonGet req "payTo" with
              | some v => some v
              | none => jsonGet req "pay_to",
            resource := jsonGet req "resource", asset := jsonGet req "asset",
            extra := jsonGet req "extra" } := by
  unfold extractPaymentRequirements
  rw [hacc]
  rw [if_neg (by simp [jsonTruthyOpt, jsonTruthy])]

/-- Extraction on a challenge with an absent or empty `accepts` raises
`No payment schemes accepted`. -/
theorem extract_noSchemes (d : Json)
    (h : jsonGet d "accepts" = none ∨ jsonGet d "accepts" = some (.arr [])) :
    extractPaymentRequirements d = .error .noSchemes := by
  unfold extractPaymentRequirements
  rcases h with h | h <;>
    rw [h, if_pos (by simp [jsonTruthyOpt, jsonTruthy])]

/-- C1 (counterexample): a structurally valid payload whose `resource`
field is the empty string does not round-trip: the encoder's
`if resource:` guard drops the key, so the decoded payload has no
resource and differs from the original. -/
theorem c1_roundtrip_cex :
    decodePaymentPayload (encodePaymentPayload
      { scheme := "exact", network := "base-sepolia", signature := "0xsig",
        authorization := sampleAuth, resource := some "" }) ≠
    some { scheme := "exact", network := "base-sepolia", signature := "0xsig",
           authorization := sampleAuth, resource := some "" } := by
  rw [decodePaymentPayload_encode]
  simp

/-- C1 (amended): for every structurally valid payload whose `resource`
field, when present, is non-empty, decoding the wire string produced by
encoding it (compact JSON then base64) yields a payload equal to the
original; and for **every** structurally valid payload the server-side
decode recovers the same signature and all six authorization fields
byte-for-byte (along with scheme and network). -/
theorem c1_roundtrip (p : PaymentPayload) :
    (p.resource ≠ some "" → decodePaymentPayload (encodePaymentPayload p) = some p) ∧
    (∀ q, decodePaymentPayload (encodePaymentPayload p) = some q →
      q.signature = p.signature ∧ q.authorization = p.authorization ∧
      q.scheme = p.scheme ∧ q.network = p.network) := by
  obtain ⟨ps, pn, psig, pa, pr⟩ := p
  constructor
  · intro hres
    rw [decodePaymentPayload_encode]
    rcases pr with _ | r
    · rfl
    · have hr : r ≠ "" := fun he => hres (by rw [he])
      simp [hr]
  · intro q hq
    rw [decodePaymentPayload_encode] at hq
    rw [Option.some.injEq] at hq
    rw [← hq]
    exact ⟨rfl, rfl, rfl, rfl⟩

/-- C1 witness. -/
theorem c1_roundtrip_witness :
    decodePaymentPayload (encodePaymentPayload
      { scheme := "exact", network := "base-sepolia", signature := "0xsig",
        authorization := sampleAuth, resource := none }) =
    some { scheme := "exact", network := "base-sepolia", signature := "0xsig",
           authorization := sampleAuth, resource := none } :=
  (c1_roundtrip _).1 (by simp)

/-- C2 (counterexample): on a malformed 402 challenge (here a valid JSON
body whose `accepts` list is empty, so requirement extraction raises
`No payment schemes accepted`), the client does not fail: it silently
substitutes the hard-coded fallback parameters, builds, signs and sends
a payment, and reports success. -/
theorem c2_fallback_cex :
    makePaymentRequest "exact" "base-sepolia" "0xClient"
      { status := 402,
        body := some (.obj [("x402Version", .num 1), ("accepts", .arr [])]),
        text := "challenge" }
      none 1000 "0xnonce" (.ok "0xsignature")
      { status := 200, body := some (.obj [("paymentVerified", .bool true)]), text := "" } =
    .paid (.obj [("paymentVerified", .bool true)]) (some (.str "10000")) := rfl

/-- C2 (amended): whenever requirement extraction fails on a 402 body,
`make_payment_request` proceeds with the fallback requirements — it
builds (and will sign and send) an authorization paying the hard-coded
fallback recipient the override amount (or `"10000"`), provided the
configured scheme and network are non-empty strings. -/
theorem c2_fallback (cfgScheme cfgNetwork selfAddr : String) (d : Json)
    (amountArg : Option String) (now : Nat) (nonce : String) (e : ClientError)
    (hs : cfgScheme ≠ "") (hn : cfgNetwork ≠ "")
    (he : extractPaymentRequirements d = .error e) :
    clientAuthorization cfgScheme cfgNetwork selfAddr d amountArg now nonce =
      .ok (createAuthorizationObject selfAddr
        (.str "0xe93cb61e3f327F344c09D5dFffE25fb0B0cFA65d")
        (.str (match amountArg with
          | some a => if a = "" then "10000" else a
          | none => "10000"))
        (now + 60) nonce) := by
  unfold clientAuthorization resolvedRequirements
  rw [he]
  unfold fallbackRequirements prepareAuthorization
  rw [if_pos]
  · rfl
  · refine ⟨by simp [jsonTruthyOpt, jsonTruthy, hs], by simp [jsonTruthyOpt, jsonTruthy, hn],
      ?_, by simp [jsonTruthyOpt, jsonTruthy]⟩
    rcases amountArg with _ | a
    · simp [jsonTruthyOpt, jsonTruthy]
    · by_cases ha : a = "" <;> simp [jsonTruthyOpt, jsonTruthy, ha]

/-- C2 witness. -/
theorem c2_fallback_witness :
    clientAuthorization "exact" "base-sepolia" "0xClient"
        (.obj [("x402Version", .num 1), ("accepts", .arr [])]) none 1000 "0xnonce" =
      .ok (createAuthorizationObject "0xClient"
        (.str "0xe93cb61e3f327F344c09D5dFffE25fb0B0cFA65d") (.str "10000") 1060 "0xnonce") :=
  c2_fallback "exact" "base-sepolia" "0xClient" _ none 1000 "0xnonce" .noSchemes
    (by simp) (by simp) (extract_noSchemes _ (Or.inr rfl))

/-- C3 (counterexample): a probe response with status 500 — neither 200
nor 402 — is reported as a success-flagged "No payment required"
outcome, not as an error. -/
theorem c3_error_passthrough_cex :
    makePaymentRequest "exact" "base-sepolia" "0xClient"
        { status := 500, body := none, text := "internal server error" }
        none 1000 "0xnonce" (.ok "0xsig") { status := 200, body := none, text := "" } =
      .noPaymentRequired 500 "internal server error" ∧
    outcomeSuccess (makePaymentRequest "exact" "base-sepolia" "0xClient"
        { status := 500, body := none, text := "internal server error" }
        none 1000 "0xnonce" (.ok "0xsig") { status := 200, body := none, text := "" }) =
      true := ⟨rfl, rfl⟩

/-- C3 (amended): every probe response whose status is not 402 —
including error statuses such as 500 — is returned to the caller as a
success-flagged "No payment required" outcome that embeds the raw
status and body text; no Error outcome exists on this path. -/
theorem c3_non402_success (cfgScheme cfgNetwork selfAddr : String) (probe : HttpResponse)
    (amountArg : Option String) (now : Nat) (nonce : String)
    (signResult : Except Unit String) (payResponse : HttpResponse)
    (h : probe.status ≠ 402) :
    makePaymentRequest cfgScheme cfgNetwork selfAddr probe amountArg now nonce
        signResult payResponse = .noPaymentRequired probe.status probe.text ∧
    outcomeSuccess (makePaymentRequest cfgScheme cfgNetwork selfAddr probe amountArg now
        nonce signResult payResponse) = true := by
  unfold makePaymentRequest
  rw [if_neg h]
  exact ⟨rfl, rfl⟩

/-- C3 witness. -/
theorem c3_non402_success_witness :
    makePaymentRequest "exact" "base-sepolia" "0xClient"
        { status := 503, body := none, text := "unavailable" }
        none 1000 "0xnonce" (.ok "0xsig") { status := 200, body := none, text := "" } =
      .noPaymentRequired 503 "unavailable" ∧
    outcomeSuccess (makePaymentRequest "exact" "base-sepolia" "0xClient"
        { status := 503, body := none, text := "unavailable" }
        none 1000 "0xnonce" (.ok "0xsig") { status := 200, body := none, text := "" }) =
      true :=
  c3_non402_success "exact" "base-sepolia" "0xClient"
    { status := 503, body := none, text := "unavailable" }
    none 1000 "0xnonce" (.ok "0xsig") { status := 200, body := none, text := "" }
    (by simp)

/-- C4: every authorization the builder produces has
`validAfter = "0"` and `validBefore = str(construction time + 60)`; the
60-second window is hard-coded, so callers cannot extend it. -/
theorem c4_window (selfAddr : String) (scheme network amount recipient : Option Json)
    (now : Nat) (nonce : String) (auth : AuthorizationDict)
    (h : prepareAuthorization selfAddr scheme network amount recipient now nonce = .ok auth) :
    auth.validAfter = "0" ∧ auth.validBefore = toString (now + 60) := by
  unfold prepareAuthorization at h
  split_ifs at h with hc
  rw [Except.ok.injEq] at h
  rw [← h]
  exact ⟨rfl, rfl⟩

/-- C4 witness. -/
theorem c4_window_witness :
    (createAuthorizationObject "0xClient" (.str "0xServer") (.str "10000")
      (1000 + 60) "0xnonce").validAfter = "0" ∧
    (createAuthorizationObject "0xClient" (.str "0xServer") (.str "10000")
      (1000 + 60) "0xnonce").validBefore = toString (1000 + 60) :=
  c4_window "0xClient" (some (.str "exact")) (some (.str "base-sepolia"))
    (some (.str "10000")) (some (.str "0xServer")) 1000 "0xnonce" _ rfl

/-- C5: when the 402 body's `accepts[0]` entry carries a string
`maxAmountRequired`, any authorization the flow builds has exactly that
string as its `value` — no rounding or numeric reformatting, regardless
of the caller's amount argument. -/
theorem c5_amount_binding (cfgScheme cfgNetwork selfAddr : String) (d req : Json)
    (rs : List Json) (m : String) (amountArg : Option String) (now : Nat) (nonce : String)
    (auth : AuthorizationDict)
    (hacc : jsonGet d "accepts" = some (.arr (req :: rs)))
    (hamt : jsonGet req "maxAmountRequired" = some (.str m))
    (hok : clientAuthorization cfgScheme cfgNetwork selfAddr d amountArg now nonce =
      .ok auth) :
    auth.value = .str m := by
  unfold clientAuthorization resolvedRequirements at hok
  rw [extract_ok d req rs hacc] at hok
  simp only [hamt] at hok
  unfold prepareAuthorization at hok
  split_ifs at hok with hc
  rw [Except.ok.injEq] at hok
  rw [← hok]
  rfl

/-- C5 witness. -/
theorem c5_amount_binding_witness :
    (createAuthorizationObject "0xClient" (.str "0xServer") (.str "10000")
      (1000 + 60) "0xnonce").value = .str "10000" := by
  refine c5_amount_binding "exact" "base-sepolia" "0xClient"
    (.obj [("x402Version", .num 1), ("accepts", .arr [.obj [("scheme", .str "exact"),
      ("network", .str "base-sepolia"), ("maxAmountRequired", .str "10000"),
      ("payTo", .str "0xServer"), ("asset", .str "0xAsset")]])])
    (.obj [("scheme", .str "exact"), ("network", .str "base-sepolia"),
      ("maxAmountRequired", .str "10000"), ("payTo", .str "0xServer"),
      ("asset", .str "0xAsset")])
    [] "10000" none 1000 "0xnonce" _ rfl rfl rfl

/-- C6 (counterexample): a challenge whose `x402Version` is present and
equal to `0` (hence not `1`) can still be accepted: Python's
`.get('x402Version') or .get('x402_version')` treats the falsy value
`0` as absent and falls through to the snake_case alias, so a body with
`x402Version` 0 and `x402_version` 1 parses successfully. -/
theorem c6_version_gate_cex :
    parseX402Response (some (.obj [("x402Version", .num 0), ("x402_version", .num 1)])) =
      .ok (.obj [("x402Version", .num 0), ("x402_version", .num 1)]) := rfl

/-- C6 (amended): for every 402 challenge whose `x402Version` field is
present, **truthy** (so the snake_case fallback is not consulted) and
not Python-equal to 1, processing fails with the unsupported-version
error, regardless of the rest of the structure. -/
theorem c6_version_gate (d v : Json)
    (hv : jsonGet d "x402Version" = some v) (ht : jsonTruthy v = true)
    (hne : pyEqOne (some v) = false) :
    parseX402Response (some d) = .error .unsupportedVersion := by
  unfold parseX402Response effectiveVersion
  simp only [hv, ht, if_true, hne, Bool.false_eq_true, if_false]

/-- C6 witness. -/
theorem c6_version_gate_witness :
    parseX402Response (some (.obj [("x402Version", .num 2),
        ("accepts", .arr [.obj [("scheme", .str "exact")]])])) =
      .error .unsupportedVersion :=
  c6_version_gate _ (.num 2) rfl rfl rfl

/-- C7: an absent or empty `accepts` list is a protocol error
(`No payment schemes accepted`), and when `accepts` is a non-empty list
the client deterministically reads every requirement field from the
entry at index 0, whatever the remaining entries are. -/
theorem c7_selection (d : Json) :
    ((jsonGet d "accepts" = none ∨ jsonGet d "accepts" = some (.arr [])) →
      extractPaymentRequirements d = .error .noSchemes) ∧
    (∀ req rs, jsonGet d "accepts" = some (.arr (req :: rs)) →
      extractPaymentRequirements d =
        .ok { scheme := jsonGet req "scheme", network := jsonGet req "network",
              amount := jsonGet req "maxAmountRequired",
              recipient :=
                match jsonGet req "payTo" with
                | some v => some v
                | none => jsonGet req "pay_to",
              resource := jsonGet req "resource", asset := jsonGet req "asset",
              extra := jsonGet req "extra" }) :=
  ⟨extract_noSchemes d, fun req rs h => extract_ok d req rs h⟩

/-- C7 witness. -/
theorem c7_selection_witness :
    extractPaymentRequirements (.obj [("accepts", .arr [])]) = .error .noSchemes ∧
    extractPaymentRequirements (.obj [("accepts",
        .arr [.obj [("scheme", .str "exact"), ("maxAmountRequired", .str "10000")],
          .obj [("scheme", .str "other"), ("maxAmountRequired", .str "99")]])]) =
      .ok { scheme := some (.str "exact"), network := none,
            amount := some (.str "10000"), recipient := none,
            resource := none, asset := none, extra := none } := by
  constructor
  · exact (c7_selection _).1 (Or.inr rfl)
  · rw [(c7_selection (.obj [("accepts",
      .arr [.obj [("scheme", .str "exact"), ("maxAmountRequired", .str "10000")],
        .obj [("scheme", .str "other"), ("maxAmountRequired", .str "99")]])])).2
      (.obj [("scheme", .str "exact"), ("maxAmountRequired", .str "10000")])
      [.obj [("scheme", .str "other"), ("maxAmountRequired", .str "99")]] rfl]
    rfl

/-- C8 (counterexample): a payment amount that is not a valid
non-negative integer string (here `"not-a-number"`) passes the builder's
only validation — Python truthiness — and an authorization carrying that
string as its `value` is built and handed to the signer; no
`InvalidAmount` rejection exists. -/
theorem c8_invalid_amount_cex :
    prepareAuthorization "0xClient" (some (.str "exact")) (some (.str "base-sepolia"))
        (some (.str "not-a-number"))
        (some (.str "0xe93cb61e3f327F344c09D5dFffE25fb0B0cFA65d")) 1000 "0xnonce" =
      .ok (createAuthorizationObject "0xClient"
        (.str "0xe93cb61e3f327F344c09D5dFffE25fb0B0cFA65d") (.str "not-a-number")
        1060 "0xnonce") := rfl

/-- C8 (amended): the builder validates only Python truthiness of its
four required parameters: any non-empty amount string — numeric or not —
is accepted and proceeds to signing with that exact string as the value,
while a missing or empty amount fails before signing with the generic
missing-parameters error (`PaymentPayloadError`), not a dedicated
`InvalidAmount` kind. -/
theorem c8_amount_validation (selfAddr : String) (scheme network recipient : Option Json)
    (a : String) (now : Nat) (nonce : String)
    (hs : jsonTruthyOpt scheme = true) (hn : jsonTruthyOpt network = true)
    (hr : jsonTruthyOpt recipient = true) :
    (a ≠ "" →
      prepareAuthorization selfAddr scheme network (some (.str a)) recipient now nonce =
        .ok (createAuthorizationObject selfAddr (recipient.getD .null) (.str a)
          (now + 60) nonce)) ∧
    prepareAuthorization selfAddr scheme network none recipient now nonce =
      .error .missingParams ∧
    prepareAuthorization selfAddr scheme network (some (.str "")) recipient now nonce =
      .error .missingParams := by
  refine ⟨?_, ?_, ?_⟩
  · intro ha
    unfold prepareAuthorization
    rw [if_pos ⟨hs, hn, by simp [jsonTruthyOpt, jsonTruthy, ha], hr⟩]
    rfl
  · unfold prepareAuthorization
    rw [if_neg (fun hcon => absurd hcon.2.2.1 (by simp [jsonTruthyOpt]))]
  · unfold prepareAuthorization
    rw [if_neg (fun hcon => absurd hcon.2.2.1 (by simp [jsonTruthyOpt, jsonTruthy]))]

/-- C8 witness. -/
theorem c8_amount_validation_witness :
    prepareAuthorization "0xClient" (some (.str "exact")) (some (.str "base-sepolia"))
        (some (.str "10000")) (some (.str "0xServer")) 1000 "0xnonce" =
      .ok (createAuthorizationObject "0xClient"
        ((some (Json.str "0xServer")).getD .null) (.str "10000") (1000 + 60) "0xnonce") :=
  (c8_amount_validation "0xClient" (some (.str "exact")) (some (.str "base-sepolia"))
    (some (.str "0xServer")) "10000" 1000 "0xnonce" rfl rfl rfl).1 (by simp)

/-- C9 (counterexample): a facilitator timeout and a facilitator reply
whose body says `isValid` false produce literally the same return value
(the bare Python `False`): the caller cannot distinguish a
facilitator-unavailable outage from an invalid authorization, and no
reason code accompanies the boolean. -/
theorem c9_reason_code_cex :
    verifyPayment .timeout =
      verifyPayment (.reply 200 (some (.obj [("isValid", .bool false)]))) := rfl

/-- C9 (amended): a timeout, a non-200 reply and a non-JSON reply are
all rejected exactly as if `isValid` were false — every such path
returns the same bare `False`, with no reason code in the returned
value (the distinction exists only in server logs). -/
theorem c9_failure_modes :
    (∀ s b, s ≠ 200 → verifyPayment (.reply s b) = .bool false) ∧
    verifyPayment .timeout = .bool false ∧
    (∀ s, verifyPayment (.reply s none) = .bool false) ∧
    verifyPayment (.reply 200 (some (.obj [("isValid", .bool false)]))) = .bool false := by
  refine ⟨?_, rfl, ?_, rfl⟩
  · intro s b hs
    simp only [verifyPayment]
    rw [if_neg hs]
  · intro s
    simp only [verifyPayment]
    by_cases hs : s = 200
    · rw [if_pos hs]
    · rw [if_neg hs]

/-- C9 witness. -/
theorem c9_failure_modes_witness :
    verifyPayment (.reply 503 (some (.obj [("error", .str "upstream")]))) = .bool false :=
  c9_failure_modes.1 503 (some (.obj [("error", .str "upstream")])) (by simp)

/-- C10: extracting the payer address from the `X-PAYMENT` header is
total and returns either the decoded authorization's `from` field when
that is a non-empty string starting with `0x`, or `"unknown"` in every
other case (absent header, bad base64/UTF-8/JSON, missing or ill-typed
fields). -/
theorem c10_payer_extraction (header : Option String) :
    getClientFromPayment header = "unknown" ∨
    (∃ s j a, header = some s ∧ decodeWire s.data = some j ∧
      authFrom j = some (.str a) ∧ a ≠ "" ∧ a.startsWith "0x" = true ∧
      getClientFromPayment header = a) := by
  rcases header with _ | h
  · exact Or.inl rfl
  · by_cases hh : h = ""
    · refine Or.inl ?_
      simp [getClientFromPayment, hh]
    · rcases hd : decodeWire h.data with _ | j
      · refine Or.inl ?_
        simp [getClientFromPayment, hh, hd]
      · rcases ha : authFrom j with _ | v
        · refine Or.inl ?_
          simp [getClientFromPayment, hh, hd, ha]
        · rcases v with _ | b | n | a | xs | kvs
          · refine Or.inl ?_
            simp [getClientFromPayment, hh, hd, ha]
          · refine Or.inl ?_
            simp [getClientFromPayment, hh, hd, ha]
          · refine Or.inl ?_
            simp [getClientFromPayment, hh, hd, ha]
          · have hred : getClientFromPayment (some h) =
                if a ≠ "" ∧ a.startsWith "0x" then a else "unknown" := by
              simp [getClientFromPayment, hh, hd, ha]
            by_cases hc : a ≠ "" ∧ a.startsWith "0x"
            · refine Or.inr ⟨h, j, a, rfl, hd, ha, hc.1, hc.2, ?_⟩
              rw [hred, if_pos hc]
            · refine Or.inl ?_
              rw [hred, if_neg hc]
          · refine Or.inl ?_
            simp [getClientFromPayment, hh, hd, ha]
          · refine Or.inl ?_
            simp [getClientFromPayment, hh, hd, ha]

end X402
